import Mathlib

/-- One handler record, the dict
`{"func": func, "is_async": is_async, "once": once, "on_error": on_error}`
appended by `addListener`.  The handler and the error callback are opaque
identifiers. -/
structure FuncInfo where
  func : Nat
  is_async : Bool
  once : Bool
  on_error : Option Nat
deriving DecidableEq, Repr

/-- Observable actions of one dispatch pass. -/
inductive CallEvent where
  /-- the handler ran (was entered) on the calling thread -/
  | invoked (f : Nat)
  /-- a daemon=False thread was started to run the async handler -/
  | spawned (f : Nat)
  /-- a `once` record was deleted from the live list -/
  | removed (r : FuncInfo)
  /-- an `on_error` callback was called with a caught error -/
  | onErrorCalled (cb : Nat) (e : Nat)
deriving DecidableEq, Repr

/-- Python dict lookup (`k in d` / `d.get(k)`), insertion order preserved. -/
def dictFind {α : Type} : List (String × α) → String → Option α
  | [], _ => none
  | (k, v) :: d, key => if k = key then some v else dictFind d key

/-- Python dict assignment `d[k] = v`: updates in place, or appends a new
key at the end (Python dicts preserve insertion order). -/
def dictSet {α : Type} : List (String × α) → String → α → List (String × α)
  | [], k, v => [(k, v)]
  | (k', v') :: d, k, v => if k' = k then (k, v) :: d else (k', v') :: dictSet d k v

/-- Python dict subscription `d[k]`: raises `KeyError` on a missing key. -/
def dict_getitem {α : Type} (d : List (String × α)) (k : String) : Except String α :=
  match dictFind d k with
  | some v => Except.ok v
  | none => Except.error "KeyError"

/-- Documentation entry stored by `_addListenerDoc`:
`{"desc": desc, "cpd": cpd}`. -/
structure EventDoc where
  desc : String
  cpd : List String
deriving DecidableEq, Repr

/-- The per-instance state installed by the `Listener` decorator's
`new_init`: the two dicts `self._listeners` and `self._listener_docs`. -/
structure ListenerState where
  _listeners : List (String × List FuncInfo)
  _listener_docs : List (String × EventDoc)
deriving DecidableEq, Repr

/-- `new_init`: `self._listeners = {}`; `self._listener_docs = {}`. -/
def new_init : ListenerState := ⟨[], []⟩

/-- `addListener(self, event, func, is_async=False, once=False, on_error=None)`:
if `event not in self._listeners: self._listeners[event] = []`, then
append the record. -/
def addListener (st : ListenerState) (event : String) (func : Nat)
    (is_async : Bool := false) (once : Bool := false)
    (on_error : Option Nat := none) : ListenerState :=
  let d :=
    match dictFind st._listeners event with
    | none => dictSet st._listeners event []
    | some _ => st._listeners
  let cur := (dictFind d event).getD []
  { st with _listeners := dictSet d event (cur ++ [⟨func, is_async, once, on_error⟩]) }

/-- Invoking an opaque callable: `env f = some e` means the call raises
error `e`, `none` means it returns normally. -/
def invoke (env : Nat → Option Nat) (f : Nat) : Except Nat Unit :=
  match env f with
  | none => Except.ok ()
  | some e => Except.error e

/-- The `try: ... except Exception as e: ...` body of `_call` for one
record.  For an async record, `threading.Thread(target=..., daemon=False)
.start()` only starts the thread (the handler runs later, in the spawned
unit — see `runSpawnedUnit`) and does not raise here.  For a sync record
the handler is invoked inline; a raised error is caught, and when
`on_error` is set the callback is invoked with it, its own failure being
swallowed by the bare `except: pass`. -/
def handleEntry (env cbEnv : Nat → Option Nat) (r : FuncInfo) : List CallEvent :=
  if r.is_async then
    [CallEvent.spawned r.func]
  else
    match invoke env r.func with
    | Except.ok _ => [CallEvent.invoked r.func]
    | Except.error e =>
      CallEvent.invoked r.func ::
        (match r.on_error with
         | some cb =>
           (match invoke cbEnv cb with
            | Except.ok _ => [CallEvent.onErrorCalled cb e]
            | Except.error _ => [CallEvent.onErrorCalled cb e])
         | none => [])

/-- The spawned execution unit of an async record: the thread target is
`lambda: asyncio.run(func(*args, **kwargs))` with no surrounding
try/except, so an error raised by the handler escapes the unit unhandled
(second component `some e`); it never reaches `_call` or its caller. -/
def runSpawnedUnit (env : Nat → Option Nat) (f : Nat) :
    List CallEvent × Option Nat :=
  match invoke env f with
  | Except.ok _ => ([CallEvent.invoked f], none)
  | Except.error e => ([CallEvent.invoked f], some e)

/-- The loop of `_call`:
`for i, func_info in list(enumerate(self._listeners[event]))` over the
snapshot, with the live list mutated by
`del self._listeners[event][i - del_count]` for `once` records.  Returns
the final live list and the trace. -/
def callLoop (env cbEnv : Nat → Option Nat) :
    List (Nat × FuncInfo) → List FuncInfo → Nat → List FuncInfo × List CallEvent
  | [], live, _ => (live, [])
  | (i, r) :: snap, live, del_count =>
    let step :
        List FuncInfo × Nat × List CallEvent :=
      if r.once then
        (live.eraseIdx (i - del_count), del_count + 1, [CallEvent.removed r])
      else
        (live, del_count, [])
    let evs := handleEntry env cbEnv r
    let rest := callLoop env cbEnv snap step.1 step.2.1
    (rest.1, step.2.2 ++ (evs ++ rest.2))

/-- `_call(self, event, *args, **kwargs)`: nothing happens when the event
has no entry; otherwise run the snapshot loop and store the mutated live
list back.  Total: no handler or callback failure propagates out. -/
def _call (env cbEnv : Nat → Option Nat) (st : ListenerState) (event : String) :
    ListenerState × List CallEvent :=
  match dictFind st._listeners event with
  | none => (st, [])
  | some live =>
    let p := callLoop env cbEnv live.enum live 0
    ({ st with _listeners := dictSet st._listeners event p.1 }, p.2)

/-- What invoking one record observably does, independently of the
error-callback behaviour: async records only get a thread spawned; a sync
record is entered, and when it raises and carries a callback, the callback
is called once with the error. -/
def invokeEvents (env : Nat → Option Nat) (r : FuncInfo) : List CallEvent :=
  if r.is_async then
    [CallEvent.spawned r.func]
  else
    match env r.func with
    | none => [CallEvent.invoked r.func]
    | some e =>
      CallEvent.invoked r.func ::
        (match r.on_error with
         | some cb => [CallEvent.onErrorCalled cb e]
         | none => [])

/-- One snapshot entry of the dispatch pass: a `once` record is removed
first, then the handler is invoked. -/
def stepSpec (env : Nat → Option Nat) (r : FuncInfo) : List CallEvent :=
  (if r.once then [CallEvent.removed r] else []) ++ invokeEvents env r

/-- A state holding exactly one event entry. -/
def stateOf (ev : String) (l : List FuncInfo) : ListenerState := ⟨[(ev, l)], []⟩

/-- `n` successive `_call` invocations on the same event, collecting the
trace of each. -/
def callN (env cbEnv : Nat → Option Nat) (st : ListenerState) (event : String) :
    Nat → ListenerState × List (List CallEvent)
  | 0 => (st, [])
  | n + 1 =>
    let p := _call env cbEnv st event
    let q := callN env cbEnv p.1 event n
    (q.1, p.2 :: q.2)

/-- How many times handler `f` is entered (inline) or handed to a spawned
unit in one trace. -/
def fires (tr : List CallEvent) (f : Nat) : Nat :=
  tr.countP (fun ev =>
    match ev with
    | CallEvent.invoked g => g == f
    | CallEvent.spawned g => g == f
    | _ => false)

/-- Total number of firings of handler `f` over a list of traces. -/
def totalFires (trs : List (List CallEvent)) (f : Nat) : Nat :=
  (trs.map (fun tr => fires tr f)).sum

/-- The ordered handler list an object currently holds for `ev` (empty
when the event has no entry). -/
def liveFor (st : ListenerState) (ev : String) : List FuncInfo :=
  (dictFind st._listeners ev).getD []

/-- Arguments of one `addListener` call. -/
structure RegArgs where
  event : String
  func : Nat
  is_async : Bool
  once : Bool
  on_error : Option Nat
deriving DecidableEq, Repr

/-- The record `addListener` appends for these arguments. -/
def toFuncInfo (a : RegArgs) : FuncInfo := ⟨a.func, a.is_async, a.once, a.on_error⟩

/-- A sequence of `addListener` calls. -/
def registerAll (st : ListenerState) (regs : List RegArgs) : ListenerState :=
  regs.foldl (fun s a => addListener s a.event a.func a.is_async a.once a.on_error) st

/-- The ids of the handlers run (inline or spawned) by one trace, in
execution order. -/
def firedSeq (tr : List CallEvent) : List Nat :=
  tr.filterMap (fun ev =>
    match ev with
    | CallEvent.invoked g => some g
    | CallEvent.spawned g => some g
    | _ => none)

/-- One operation performed on a live object: a registration or a raise. -/
inductive Op where
  | reg (a : RegArgs)
  | raiseEv (env cbEnv : Nat → Option Nat) (event : String)

def runOp (st : ListenerState) : Op → ListenerState
  | Op.reg a => addListener st a.event a.func a.is_async a.once a.on_error
  | Op.raiseEv env cbEnv ev => (_call env cbEnv st ev).1

def runOps (st : ListenerState) (ops : List Op) : ListenerState :=
  ops.foldl runOp st

/-- The full registration sequence an operation list performs for `ev`. -/
def opRegsFor (ops : List Op) (ev : String) : List FuncInfo :=
  ops.filterMap (fun o =>
    match o with
    | Op.reg a => if a.event = ev then some (toFuncInfo a) else none
    | _ => none)

/-- Occurrences of the callback invocation `on_error(e)` in a trace. -/
def onErrorCount (tr : List CallEvent) (cb er : Nat) : Nat :=
  tr.countP (fun x => x == CallEvent.onErrorCalled cb er)

/-- The registration effect of the `on` decorator:
`decorator(func)` calls `self.addListener(event_name, func, is_async,
once)` — the decorator's `on_error` argument is not forwarded, so
`addListener` runs with its default `on_error=None`. -/
def on_decorator (st : ListenerState) (event_name : String) (func : Nat)
    (is_async : Bool := false) (once : Bool := false)
    (on_error : Option Nat := none) : ListenerState :=
  addListener st event_name func is_async once

/-- The slice of Python `ast` node shapes `extract_listeners` inspects:
a module holding a class definition, function bodies, expression
statements, calls with positional arguments, attribute access, names and
constants.  Constant values are modelled as the strings the extractor
records. -/
inductive PyAst where
  | Module (body : List PyAst)
  | ClassDef (name : String) (body : List PyAst)
  | FunctionDef (name : String) (body : List PyAst)
  | ExprStmt (value : PyAst)
  | Call (func : PyAst) (args : List PyAst)
  | Attribute (value : PyAst) (attr : String)
  | Name (id : String)
  | Constant (value : String)

/-- `ast.iter_child_nodes`, children in field order. -/
def children : PyAst → List PyAst
  | PyAst.Module body => body
  | PyAst.ClassDef _ body => body
  | PyAst.FunctionDef _ body => body
  | PyAst.ExprStmt v => [v]
  | PyAst.Call f args => f :: args
  | PyAst.Attribute v _ => [v]
  | PyAst.Name _ => []
  | PyAst.Constant _ => []

mutual

/-- Size of a node (for the breadth-first walk's termination). -/
def sizeA : PyAst → Nat
  | PyAst.Module body => 1 + sizeL body
  | PyAst.ClassDef _ body => 1 + sizeL body
  | PyAst.FunctionDef _ body => 1 + sizeL body
  | PyAst.ExprStmt v => 1 + sizeA v
  | PyAst.Call f args => 1 + sizeA f + sizeL args
  | PyAst.Attribute v _ => 1 + sizeA v
  | PyAst.Name _ => 1
  | PyAst.Constant _ => 1

/-- Total size of a node list. -/
def sizeL : List PyAst → Nat
  | [] => 0
  | x :: xs => sizeA x + sizeL xs
end

/-- The queue loop of `ast.walk`: pop the front node, enqueue its
children, yield the node (breadth-first order). -/
def walkAux (q : List PyAst) : List PyAst :=
  match q with
  | [] => []
  | n :: todo => n :: walkAux (todo ++ children n)
termination_by sizeL q
decreasing_by
  have happ : ∀ a b : List PyAst, sizeL (a ++ b) = sizeL a + sizeL b := by
    intro a b
    induction a with
    | nil => simp [sizeL]
    | cons y ys ih => simp [sizeL, ih, Nat.add_assoc]
  have hlt : sizeL (children x) < sizeA x := by
    cases x <;> simp [children, sizeA, sizeL]
  simp only [sizeL, happ]
  omega

/-- `ast.walk(tree)`: every node of the tree, breadth first. -/
def walk (t : PyAst) : List PyAst := walkAux [t]

/-- The condition of the extractor's `if`: the node is a `Call` whose
`func` is an `Attribute` on the `Name` `"self"` with attribute `_call`
or `_addListenerDoc`, and whose first positional argument exists and is
a `Constant`; yields the constant. -/
def matchEventName : PyAst → Option String
  | PyAst.Call (PyAst.Attribute recv attr) args =>
    (match recv with
     | PyAst.Name id =>
       if id = "self" ∧ (attr = "_call" ∨ attr = "_addListenerDoc") then
         match args with
         | PyAst.Constant v :: _ => some v
         | _ => none
       else none
     | _ => none)
  | _ => none

/-- The walk loop of `extract_listeners`: append each matched literal to
`result["events"]` unless already present. -/
def extractLoop : List PyAst → List String → List String
  | [], events => events
  | node :: rest, events =>
    match matchEventName node with
    | some event_name =>
      if event_name ∈ events then extractLoop rest events
      else extractLoop rest (events ++ [event_name])
    | none => extractLoop rest events

/-- `result = {"events": [...], "error": ...}`; the falsy initial error
`""` is modelled as `none`, a caught exception as `some e`. -/
structure ExtractionResult where
  events : List String
  error : Option String
deriving DecidableEq, Repr

/-- `extract_listeners(cls)`.  The prologue
`ast.parse(textwrap.dedent(inspect.getsource(cls)))` is modelled by the
`Except` argument: `Except.error e` is a getsource/dedent/parse failure
(caught and reported through the `error` field), `Except.ok tree` a
successfully parsed tree, which the walk loop then processes; the loop
body (isinstance checks, attribute reads, membership test, append) is
total, so the second `except` arm adds nothing for a parsed tree. -/
def extract_listeners (parsed : Except String PyAst) : ExtractionResult :=
  match parsed with
  | Except.error e => { events := [], error := some e }
  | Except.ok tree => { events := extractLoop (walk tree) [], error := none }

/-- Specification-side deduplication keeping the first occurrence of
each name. -/
def firstSeenDedup : List String → List String
  | [] => []
  | x :: xs => x :: firstSeenDedup (xs.filter (fun y => decide (y ≠ x)))
termination_by l => l.length
decreasing_by
  have h := List.length_filter_le (fun y => decide (y ≠ x)) xs
  simp only [List.length_cons]
  omega

/-- Specification-side reading of the extractor's match condition. -/
def IsEventCall (n : PyAst) (v : String) : Prop :=
  ∃ attr rest, (attr = "_call" ∨ attr = "_addListenerDoc") ∧
    n = PyAst.Call (PyAst.Attribute (PyAst.Name "self") attr)
          (PyAst.Constant v :: rest)

/-- The extractor's loop viewed on the stream of matched literals. -/
def dedupLoop : List String → List String → List String
  | [], acc => acc
  | v :: vs, acc =>
    if v ∈ acc then dedupLoop vs acc else dedupLoop vs (acc ++ [v])

/-- The parsed source of a class whose method raises two events:
`class MyClass:` containing `def run(self):` with the statements
`self._call("connected")` and `self._call("disconnected")`. -/
def exampleTree : PyAst :=
  PyAst.Module [PyAst.ClassDef "MyClass"
    [PyAst.FunctionDef "run"
      [PyAst.ExprStmt (PyAst.Call
         (PyAst.Attribute (PyAst.Name "self") "_call")
         [PyAst.Constant "connected"]),
       PyAst.ExprStmt (PyAst.Call
         (PyAst.Attribute (PyAst.Name "self") "_call")
         [PyAst.Constant "disconnected"])]]]

/-- `_addListenerDoc(self, event, desc, *cpd)`:
`self._listener_docs[event] = {"desc": desc, "cpd": cpd}`. -/
def _addListenerDoc (st : ListenerState) (event desc : String)
    (cpd : List String) : ListenerState :=
  { st with _listener_docs := dictSet st._listener_docs event ⟨desc, cpd⟩ }

/-- The inner `for j, n in enumerate(...["cpd"])` loop of
`_buildListenerDocs_md`. -/
def param_md_of (cpd : List String) : String :=
  (cpd.enum).foldl
    (fun acc jn =>
      acc ++ "\n> **" ++ toString (jn.1 + 1) ++ "**. " ++ jn.2 ++ "<br>")
    ""

/-- `_buildListenerDocs_md(self)`; `clsName` is `cls.__name__`. -/
def _buildListenerDocs_md (clsName : String) (st : ListenerState) : String :=
  let docs := st._listener_docs
  let container_md :=
    (docs.enum).foldl
      (fun acc iv =>
        let param0 := param_md_of iv.2.2.cpd
        let param_md := if param0 = "" then "\n> **<无>**" else param0
        let acc2 := acc ++ "\n## " ++ iv.2.1 ++ "\n" ++ iv.2.2.desc ++ "\n"
          ++ param_md ++ "\n"
        if iv.1 ≠ docs.length - 1 then acc2 ++ "\n---\n" else acc2)
      ""
  "# " ++ clsName ++ " Listener Events Docs <" ++ toString docs.length
    ++ " Events>\n" ++ container_md ++ "\n---\n**Generated by @Listener**"

/-- The inner parameter loop of `_buildListenerDocs_html`. -/
def param_html_of (cpd : List String) : String :=
  (cpd.enum).foldl
    (fun acc jn => acc
      ++ "\n            <!-- " ++ toString (jn.1 + 1) ++ ". " ++ jn.2 ++ " -->"
      ++ "\n            <div class=\"param\">"
      ++ "\n                <span>" ++ toString (jn.1 + 1) ++ ".</span>"
      ++ "\n                <span class=\"param-desc\">" ++ jn.2 ++ "</span>"
      ++ "\n            </div>\n")
    ""

/-- The `<style>` block of the HTML template (CSS braces written as
escapes). -/
def html_style : String :=
  "    <style>\n"
  ++ "        body \x7b \n            font-family: Arial, sans-serif; \n            margin: 40px; \n            background: #f5f5f5; \n        \x7d\n"
  ++ "        \n"
  ++ "        .event \x7b \n            background: white; \n            padding: 20px; \n            margin-bottom: 20px; \n            border-radius: 5px; \n            box-shadow: 0 2px 5px rgba(0,0,0,0.1); \n        \x7d\n"
  ++ "        \n"
  ++ "        .event-name \x7b \n            color: #2c3e50; \n            font-size: 24px; \n            margin: 0 0 10px 0; \n            border-bottom: 2px solid #3498db; \n            padding-bottom: 5px; \n        \x7d\n"
  ++ "        \n"
  ++ "        .event-desc \x7b \n            color: #555; \n            margin-bottom: 15px; \n        \x7d\n"
  ++ "        \n"
  ++ "        .params-box \x7b \n            background: #f8f9fa; \n            border-left: 4px solid #3498db; \n            padding: 15px; \n            margin: 15px 0; \n        \x7d\n"
  ++ "        \n"
  ++ "        .params-title \x7b \n            color: #2c3e50; \n            font-weight: bold; \n            margin-bottom: 10px; \n        \x7d\n"
  ++ "        \n"
  ++ "        .param \x7b \n            margin: 8px 0; \n            padding-left: 15px; \n        \x7d\n"
  ++ "        \n"
  ++ "        .param-desc \x7b \n            color: #555; \n        \x7d\n"
  ++ "        \n"
  ++ "        .divider \x7b \n            height: 1px; \n            background: #ddd; \n            margin: 25px 0; \n        \x7d\n"
  ++ "        \n"
  ++ "        .event-count \x7b\n            background: #A1ED1F;\n            color: white;\n            padding: 2px 10px;\n            border-radius: 12px;\n            font-size: 25px;\n        \x7d\n"
  ++ "        \n"
  ++ "        .title \x7b\n            color: #2c3e50;\n            font-size: 32px;\n            text-align: center;\n            margin-bottom: 30px;\n        \x7d\n"
  ++ "        \n"
  ++ "        .footer \x7b\n            text-align: center;\n            color: #888;\n            margin-top: 40px;\n            padding-top: 20px;\n            border-top: 1px solid #eee;\n        \x7d\n"
  ++ "    </style>\n"

/-- `_buildListenerDocs_html(self)`; `clsName` is `cls.__name__`. -/
def _buildListenerDocs_html (clsName : String) (st : ListenerState) : String :=
  let docs := st._listener_docs
  let container_html :=
    (docs.enum).foldl
      (fun acc iv =>
        let param0 := param_html_of iv.2.2.cpd
        let param_html :=
          if param0 = "" then
            "\n            <!-- NULL -->\n            <div class=\"param\">\n                <span><无></span>\n            </div>\n"
          else param0
        let acc2 := acc
          ++ "\n        <!-- " ++ iv.2.1 ++ " -->"
          ++ "\n        <div class=\"event\">"
          ++ "\n            <h2 class=\"event-name\">" ++ iv.2.1 ++ "</h2>"
          ++ "\n            <div class=\"event-desc\">" ++ iv.2.2.desc ++ "</div>"
          ++ "\n            "
          ++ "\n            <div class=\"params-box\">"
          ++ "\n                <div class=\"params-title\">调用函数时传参：</div>"
          ++ "\n" ++ param_html
          ++ "\n            </div>"
          ++ "\n        </div>\n"
        if iv.1 ≠ docs.length - 1 then
          acc2 ++ "\n        <!-- Divider -->\n        <div class=\"divider\"></div>\n"
        else acc2)
      ""
  "<!-- " ++ clsName ++ " Listener Events Docs -->"
  ++ "\n<!-- Use @Listener auto generated -->"
  ++ "\n<!DOCTYPE html>"
  ++ "\n<html>"
  ++ "\n<head>"
  ++ "\n    <meta charset=\"UTF-8\">"
  ++ "\n    <title>" ++ clsName ++ " Listener Events Docs</title>"
  ++ "\n" ++ html_style
  ++ "</head>"
  ++ "\n<body>"
  ++ "\n    <h1 class=\"title\">"
  ++ "\n        " ++ clsName ++ " Listener Events Docs"
  ++ "\n        <span class=\"event-count\">" ++ toString docs.length ++ " Events</span>"
  ++ "\n    </h1>"
  ++ "\n    <div class=\"container\">"
  ++ "\n" ++ container_html
  ++ "\n        <!-- No divider-->"
  ++ "\n    </div>"
  ++ "\n    <!-- Footer -->"
  ++ "\n    <div class=\"footer\">"
  ++ "\n        Generated by @Listener"
  ++ "\n    </div>"
  ++ "\n</body>"
  ++ "\n</html>"

/-- `buildListenerDocs(self, model="html")`: `"markdown"`/`"md"` select
the Markdown renderer, anything else the HTML one. -/
def buildListenerDocs (clsName : String) (st : ListenerState)
    (model : String := "html") : String :=
  if model = "markdown" ∨ model = "md" then _buildListenerDocs_md clsName st
  else _buildListenerDocs_html clsName st

/-! ### Lemmas and claim theorems -/

lemma handleEntry_eq_invokeEvents (env cbEnv : Nat → Option Nat) (r : FuncInfo) :
    handleEntry env cbEnv r = invokeEvents env r := by
  rcases r with ⟨f, a, o, oe⟩
  cases a with
  | true => simp [handleEntry, invokeEvents]
  | false =>
    cases henv : env f with
    | none => simp [handleEntry, invokeEvents, invoke, henv]
    | some e =>
      cases oe with
      | none => simp [handleEntry, invokeEvents, invoke, henv]
      | some cb =>
        cases hcb : cbEnv cb <;>
          simp [handleEntry, invokeEvents, invoke, henv, hcb]

lemma eraseIdx_append_length {α : Type} (A : List α) (r : α) (suf : List α) :
    (A ++ r :: suf).eraseIdx A.length = A ++ suf := by
  induction A with
  | nil => rfl
  | cons a A ih => simpa [List.eraseIdx] using ih

/-- The dispatch loop, run on the snapshot of `A ++ suf` with the first
`A.length + del_count` snapshot entries already processed (`A` is what
the processed prefix left in the live list, `del_count` of its records
having been deleted): it filters the `once` records out of `suf` and
emits `stepSpec` for each remaining snapshot entry. -/
lemma callLoop_eq (env cbEnv : Nat → Option Nat) :
    ∀ (suf A : List FuncInfo) (del_count k : Nat), k = A.length + del_count →
      callLoop env cbEnv (List.enumFrom k suf) (A ++ suf) del_count
        = (A ++ suf.filter (fun r => !r.once), suf.flatMap (stepSpec env)) := by
  intro suf
  induction suf with
  | nil => intro A dc k hk; simp [callLoop]
  | cons r suf ih =>
    intro A dc k hk
    by_cases h : r.once
    · have hidx : k - dc = A.length := by omega
      have herase : (A ++ r :: suf).eraseIdx (k - dc) = A ++ suf := by
        rw [hidx]; exact eraseIdx_append_length A r suf
      have hrec := ih A (dc + 1) (k + 1) (by omega)
      simp only [List.enumFrom, callLoop, h, if_true, herase, hrec,
        handleEntry_eq_invokeEvents]
      simp [stepSpec, h]
    · have hrec := ih (A ++ [r]) dc (k + 1) (by simp; omega)
      simp only [List.append_assoc, List.singleton_append] at hrec
      simp only [List.enumFrom, callLoop, h, if_false,
        handleEntry_eq_invokeEvents]
      simp [stepSpec, h, hrec]

lemma call_stateOf (env cbEnv : Nat → Option Nat) (ev : String) (l : List FuncInfo) :
    _call env cbEnv (stateOf ev l) ev
      = (stateOf ev (l.filter (fun r => !r.once)), l.flatMap (stepSpec env)) := by
  have h := callLoop_eq env cbEnv l [] 0 0 (by simp)
  simp only [List.nil_append] at h
  simp [_call, stateOf, dictFind, dictSet, List.enum, h]

lemma fires_append (a b : List CallEvent) (f : Nat) :
    fires (a ++ b) f = fires a f + fires b f := by
  simp [fires, List.countP_append]

lemma fires_invokeEvents (env : Nat → Option Nat) (r : FuncInfo) (f : Nat) :
    fires (invokeEvents env r) f = if r.func == f then 1 else 0 := by
  rcases r with ⟨g, a, o, oe⟩
  cases a with
  | true => simp [invokeEvents, fires, List.countP_cons]
  | false =>
    cases henv : env g with
    | none => simp [invokeEvents, fires, henv, List.countP_cons]
    | some e =>
      cases oe <;> simp [invokeEvents, fires, henv, List.countP_cons]

lemma fires_stepSpec (env : Nat → Option Nat) (r : FuncInfo) (f : Nat) :
    fires (stepSpec env r) f = if r.func == f then 1 else 0 := by
  have h0 : ∀ (r' : FuncInfo) (tr : List CallEvent),
      fires (CallEvent.removed r' :: tr) f = fires tr f := by
    intro r' tr; simp [fires, List.countP_cons]
  by_cases h : r.once <;>
    simp [stepSpec, h, h0, fires_invokeEvents]

lemma fires_flatMap_stepSpec (env : Nat → Option Nat) (l : List FuncInfo) (f : Nat) :
    fires (l.flatMap (stepSpec env)) f = l.countP (fun r => r.func == f) := by
  induction l with
  | nil => rfl
  | cons r l ih =>
    simp only [List.flatMap_cons, fires_append, ih, List.countP_cons,
      fires_stepSpec]
    by_cases h : r.func == f
    · simp [h]; omega
    · simp [h]

lemma filter_once_idem (l : List FuncInfo) :
    (l.filter (fun r => !r.once)).filter (fun r => !r.once)
      = l.filter (fun r => !r.once) := by
  induction l with
  | nil => rfl
  | cons r l ih => by_cases h : r.once <;> simp [h, ih]

lemma countP_and_split (l : List FuncInfo) (a b : FuncInfo → Bool) :
    l.countP (fun r => a r && b r) + l.countP (fun r => a r && !b r)
      = l.countP a := by
  induction l with
  | nil => rfl
  | cons x xs ih =>
    cases hax : a x <;> cases hbx : b x <;>
      simp [List.countP_cons, hax, hbx] <;> omega

lemma countP_filter_once (l : List FuncInfo) (f : Nat) :
    (l.filter (fun r => !r.once)).countP (fun r => r.func == f)
      = l.countP (fun r => r.func == f && !r.once) := by
  induction l with
  | nil => rfl
  | cons r l ih =>
    by_cases h : r.once <;> by_cases hf : r.func == f <;>
      simp [h, hf, List.countP_cons, ih]

lemma callN_filtered (env cbEnv : Nat → Option Nat) (ev : String)
    (l : List FuncInfo) :
    ∀ m, callN env cbEnv (stateOf ev (l.filter (fun r => !r.once))) ev m
      = (stateOf ev (l.filter (fun r => !r.once)),
         List.replicate m ((l.filter (fun r => !r.once)).flatMap (stepSpec env))) := by
  intro m
  induction m with
  | zero => rfl
  | succ m ih =>
    simp only [callN, call_stateOf, filter_once_idem, ih, List.replicate_succ]

lemma totalFires_replicate (n : Nat) (tr : List CallEvent) (f : Nat) :
    totalFires (List.replicate n tr) f = n * fires tr f := by
  induction n with
  | zero => simp [totalFires]
  | succ n ih =>
    simp only [totalFires, List.replicate_succ, List.map_cons, List.sum_cons] at *
    rw [ih]; ring

lemma totalFires_cons (tr : List CallEvent) (trs : List (List CallEvent)) (f : Nat) :
    totalFires (tr :: trs) f = fires tr f + totalFires trs f := by
  simp [totalFires]

/-- C1: a `once=true` record fires exactly once over any positive number
of `_call` invocations, a `once=false` record fires once per invocation
(counted here for all records carrying handler `f`), and the
`[A(once=false), B(once=true), C(once=false)]` example invokes `A,B,C` on
the first call and `A,C` on the second, the record removed by the
`i - del_count` arithmetic being exactly `B`. -/
theorem C1_once_fire_semantics (env cbEnv : Nat → Option Nat) (ev : String)
    (l : List FuncInfo) (f : Nat) (n : Nat) (hn : 1 ≤ n) :
    (totalFires (callN env cbEnv (stateOf ev l) ev n).2 f
      = l.countP (fun r => r.func == f && r.once)
        + n * l.countP (fun r => r.func == f && !r.once))
  ∧ callN (fun _ => none) (fun _ => none)
      (stateOf "e" [⟨0, false, false, none⟩, ⟨1, false, true, none⟩,
        ⟨2, false, false, none⟩]) "e" 2
      = (stateOf "e" [⟨0, false, false, none⟩, ⟨2, false, false, none⟩],
         [[CallEvent.invoked 0, CallEvent.removed ⟨1, false, true, none⟩,
           CallEvent.invoked 1, CallEvent.invoked 2],
          [CallEvent.invoked 0, CallEvent.invoked 2]]) := by
  constructor
  · obtain ⟨m, rfl⟩ : ∃ m, n = m + 1 := ⟨n - 1, by omega⟩
    simp only [callN, call_stateOf, callN_filtered, totalFires_cons,
      totalFires_replicate, fires_flatMap_stepSpec, countP_filter_once]
    rw [← countP_and_split l (fun r => r.func == f) (fun r => r.once)]
    ring
  · rfl

/-- Witness for C1: handler 7 registered once with `once=true` and once
with `once=false`, three raises. -/
theorem C1_once_fire_semantics_witness :
    1 ≤ 3 ∧
    ((totalFires (callN (fun _ => none) (fun _ => none)
        (stateOf "e" [⟨7, false, true, none⟩, ⟨7, false, false, none⟩]) "e" 3).2 7
      = List.countP (fun r => r.func == 7 && r.once)
          ([⟨7, false, true, none⟩, ⟨7, false, false, none⟩] : List FuncInfo)
        + 3 * List.countP (fun r => r.func == 7 && !r.once)
          ([⟨7, false, true, none⟩, ⟨7, false, false, none⟩] : List FuncInfo))
     ∧ callN (fun _ => none) (fun _ => none)
        (stateOf "e" [⟨0, false, false, none⟩, ⟨1, false, true, none⟩,
          ⟨2, false, false, none⟩]) "e" 2
        = (stateOf "e" [⟨0, false, false, none⟩, ⟨2, false, false, none⟩],
           [[CallEvent.invoked 0, CallEvent.removed ⟨1, false, true, none⟩,
             CallEvent.invoked 1, CallEvent.invoked 2],
            [CallEvent.invoked 0, CallEvent.invoked 2]])) :=
  ⟨by decide,
   C1_once_fire_semantics (fun _ => none) (fun _ => none) "e"
     [⟨7, false, true, none⟩, ⟨7, false, false, none⟩] 7 3 (by decide)⟩

lemma dictFind_set_self {α : Type} (d : List (String × α)) (k : String) (v : α) :
    dictFind (dictSet d k v) k = some v := by
  induction d with
  | nil => simp [dictSet, dictFind]
  | cons p d ih =>
    obtain ⟨k', v'⟩ := p
    by_cases h : k' = k <;> simp [dictSet, dictFind, h, ih]

lemma dictFind_set_ne {α : Type} (d : List (String × α)) (k key : String) (v : α)
    (h : k ≠ key) :
    dictFind (dictSet d k v) key = dictFind d key := by
  induction d with
  | nil => simp [dictSet, dictFind, h]
  | cons p d ih =>
    obtain ⟨k', v'⟩ := p
    by_cases h' : k' = k
    · subst h'; simp [dictSet, dictFind, h]
    · simp [dictSet, dictFind, h', ih]

lemma addListener_find_self (st : ListenerState) (ev : String) (f : Nat)
    (a o : Bool) (er : Option Nat) :
    dictFind (addListener st ev f a o er)._listeners ev
      = some (liveFor st ev ++ [⟨f, a, o, er⟩]) := by
  unfold addListener liveFor
  cases h : dictFind st._listeners ev with
  | none => simp [h, dictFind_set_self]
  | some cur => simp [h, dictFind_set_self]

lemma addListener_find_ne (st : ListenerState) (ev ev' : String) (f : Nat)
    (a o : Bool) (er : Option Nat) (hne : ev ≠ ev') :
    dictFind (addListener st ev f a o er)._listeners ev'
      = dictFind st._listeners ev' := by
  unfold addListener
  cases h : dictFind st._listeners ev with
  | none => simp [h, dictFind_set_ne _ _ _ _ hne]
  | some cur => simp [h, dictFind_set_ne _ _ _ _ hne]

lemma call_listeners (env cbEnv : Nat → Option Nat) (st : ListenerState) (e : String) :
    (_call env cbEnv st e).1._listeners
      = match dictFind st._listeners e with
        | none => st._listeners
        | some live => dictSet st._listeners e (live.filter (fun r => !r.once)) := by
  cases h : dictFind st._listeners e with
  | none => simp [_call, h]
  | some live =>
    have hc := callLoop_eq env cbEnv live [] 0 0 (by simp)
    simp only [List.nil_append] at hc
    simp [_call, h, List.enum, hc]

lemma call_trace (env cbEnv : Nat → Option Nat) (st : ListenerState) (e : String) :
    (_call env cbEnv st e).2 = (liveFor st e).flatMap (stepSpec env) := by
  cases h : dictFind st._listeners e with
  | none => simp [_call, h, liveFor]
  | some live =>
    have hc := callLoop_eq env cbEnv live [] 0 0 (by simp)
    simp only [List.nil_append] at hc
    simp [_call, h, List.enum, hc, liveFor]

lemma call_liveFor_sublist (env cbEnv : Nat → Option Nat) (st : ListenerState)
    (e ev : String) :
    List.Sublist (liveFor ((_call env cbEnv st e).1) ev) (liveFor st ev) := by
  unfold liveFor
  rw [call_listeners]
  cases h : dictFind st._listeners e with
  | none => simp
  | some live =>
    by_cases hev : e = ev
    · subst hev
      simp [dictFind_set_self, h]
    · simp [dictFind_set_ne _ _ _ _ hev]

lemma registerAll_liveFor :
    ∀ (regs : List RegArgs) (st : ListenerState) (ev : String),
      liveFor (registerAll st regs) ev
        = liveFor st ev
            ++ regs.filterMap
                 (fun a => if a.event = ev then some (toFuncInfo a) else none) := by
  intro regs
  induction regs with
  | nil => intro st ev; simp [registerAll]
  | cons a regs ih =>
    intro st ev
    have hstep : registerAll st (a :: regs)
        = registerAll (addListener st a.event a.func a.is_async a.once a.on_error) regs := rfl
    rw [hstep, ih]
    by_cases h : a.event = ev
    · subst h
      rw [show liveFor (addListener st a.event a.func a.is_async a.once a.on_error) a.event
            = liveFor st a.event ++ [toFuncInfo a] by
          simp [liveFor, addListener_find_self, toFuncInfo]]
      simp
    · rw [show liveFor (addListener st a.event a.func a.is_async a.once a.on_error) ev
            = liveFor st ev by
          simp [liveFor, addListener_find_ne _ _ _ _ _ _ _ h]]
      simp [h]

lemma firedSeq_append (a b : List CallEvent) :
    firedSeq (a ++ b) = firedSeq a ++ firedSeq b := by
  simp [firedSeq]

lemma firedSeq_stepSpec (env : Nat → Option Nat) (r : FuncInfo) :
    firedSeq (stepSpec env r) = [r.func] := by
  rcases r with ⟨g, a, o, oe⟩
  cases a with
  | true => cases o <;> simp [stepSpec, invokeEvents, firedSeq]
  | false =>
    cases henv : env g with
    | none => cases o <;> simp [stepSpec, invokeEvents, firedSeq, henv]
    | some e =>
      cases oe <;> cases o <;> simp [stepSpec, invokeEvents, firedSeq, henv]

lemma firedSeq_flatMap (env : Nat → Option Nat) (l : List FuncInfo) :
    firedSeq (l.flatMap (stepSpec env)) = l.map (fun r => r.func) := by
  induction l with
  | nil => rfl
  | cons r l ih => simp [List.flatMap_cons, firedSeq_append, firedSeq_stepSpec, ih]

lemma runOps_liveFor_sublist :
    ∀ (ops : List Op) (st : ListenerState) (ev : String) (R : List FuncInfo),
      List.Sublist (liveFor st ev) R →
      List.Sublist (liveFor (runOps st ops) ev) (R ++ opRegsFor ops ev) := by
  intro ops
  induction ops with
  | nil => intro st ev R h; simpa [runOps, opRegsFor] using h
  | cons o ops ih =>
    intro st ev R h
    have hstep : runOps st (o :: ops) = runOps (runOp st o) ops := rfl
    rw [hstep]
    cases o with
    | reg a =>
      by_cases hev : a.event = ev
      · subst hev
        have h1 : liveFor (runOp st (Op.reg a)) a.event
            = liveFor st a.event ++ [toFuncInfo a] := by
          simp [runOp, liveFor, addListener_find_self, toFuncInfo]
        have h2 : List.Sublist (liveFor (runOp st (Op.reg a)) a.event)
            (R ++ [toFuncInfo a]) := by
          rw [h1]; exact List.Sublist.append h (List.Sublist.refl _)
        have h3 := ih (runOp st (Op.reg a)) a.event (R ++ [toFuncInfo a]) h2
        simpa [opRegsFor] using h3
      · have h1 : liveFor (runOp st (Op.reg a)) ev = liveFor st ev := by
          simp [runOp, liveFor, addListener_find_ne _ _ _ _ _ _ _ hev]
        have h3 := ih (runOp st (Op.reg a)) ev R (by rw [h1]; exact h)
        simpa [opRegsFor, hev] using h3
    | raiseEv env cbEnv e =>
      have h1 : List.Sublist (liveFor (runOp st (Op.raiseEv env cbEnv e)) ev)
          (liveFor st ev) := call_liveFor_sublist env cbEnv st e ev
      have h3 := ih (runOp st (Op.raiseEv env cbEnv e)) ev R (h1.trans h)
      simpa [opRegsFor] using h3

/-- C2: registering any sequence of handlers on one event stores exactly
that sequence in registration order (duplicates included, one record per
registration); one `raise` then runs the handlers in exactly that order,
one firing per registration; and after any interleaving of registrations
and raises the live sequence for an event is a sublist of (keeps the
relative order of) its full registration sequence. -/
theorem C2_registration_order (env cbEnv : Nat → Option Nat) (ev : String)
    (regs : List RegArgs) (h : ∀ a ∈ regs, a.event = ev) :
    (liveFor (registerAll new_init regs) ev = regs.map toFuncInfo)
  ∧ (firedSeq (_call env cbEnv (registerAll new_init regs) ev).2
      = (regs.map toFuncInfo).map (fun r => r.func))
  ∧ (∀ (ops : List Op) (ev' : String),
      List.Sublist (liveFor (runOps new_init ops) ev') (opRegsFor ops ev')) := by
  have hlive : liveFor (registerAll new_init regs) ev = regs.map toFuncInfo := by
    rw [registerAll_liveFor]
    have : regs.filterMap
        (fun a => if a.event = ev then some (toFuncInfo a) else none)
        = regs.map toFuncInfo := by
      induction regs with
      | nil => rfl
      | cons a regs ih =>
        have ha := h a (by simp)
        have ih' := ih (fun b hb => h b (by simp [hb]))
        simp [ha, ih']
    simp [liveFor, new_init, dictFind, this]
  refine ⟨hlive, ?_, ?_⟩
  · rw [call_trace, hlive, firedSeq_flatMap]
  · intro ops ev'
    have h0 : List.Sublist (liveFor new_init ev') ([] : List FuncInfo) := by
      simp [liveFor, new_init, dictFind]
    simpa using runOps_liveFor_sublist ops new_init ev' [] h0

/-- Witness for C2: two registrations of the same handler on one event. -/
theorem C2_registration_order_witness :
    (∀ a ∈ [RegArgs.mk "e" 4 false false none, RegArgs.mk "e" 4 false false none],
      a.event = "e") ∧
    ((liveFor (registerAll new_init
        [RegArgs.mk "e" 4 false false none, RegArgs.mk "e" 4 false false none]) "e"
      = ([RegArgs.mk "e" 4 false false none,
          RegArgs.mk "e" 4 false false none]).map toFuncInfo)
    ∧ (firedSeq (_call (fun _ => none) (fun _ => none)
        (registerAll new_init
          [RegArgs.mk "e" 4 false false none, RegArgs.mk "e" 4 false false none]) "e").2
        = (([RegArgs.mk "e" 4 false false none,
             RegArgs.mk "e" 4 false false none]).map toFuncInfo).map (fun r => r.func))
    ∧ (∀ (ops : List Op) (ev' : String),
        List.Sublist (liveFor (runOps new_init ops) ev') (opRegsFor ops ev'))) :=
  ⟨by decide,
   C2_registration_order (fun _ => none) (fun _ => none) "e"
     [RegArgs.mk "e" 4 false false none, RegArgs.mk "e" 4 false false none]
     (by decide)⟩

lemma onErrorCount_append (a b : List CallEvent) (cb er : Nat) :
    onErrorCount (a ++ b) cb er = onErrorCount a cb er + onErrorCount b cb er := by
  simp [onErrorCount, List.countP_append]

lemma onErrorCount_stepSpec (env : Nat → Option Nat) (r : FuncInfo) (cb er : Nat) :
    onErrorCount (stepSpec env r) cb er
      = if !r.is_async && r.on_error == some cb && env r.func == some er
        then 1 else 0 := by
  rcases r with ⟨g, a, o, oe⟩
  have hrm : ∀ tr, onErrorCount (CallEvent.removed ⟨g, a, o, oe⟩ :: tr) cb er
      = onErrorCount tr cb er := by
    intro tr; simp [onErrorCount, List.countP_cons]
  cases a with
  | true => cases o <;> simp [stepSpec, invokeEvents, onErrorCount, hrm]
  | false =>
    cases henv : env g with
    | none => cases o <;> simp [stepSpec, invokeEvents, onErrorCount, hrm, henv]
    | some e' =>
      cases oe with
      | none => cases o <;> simp [stepSpec, invokeEvents, onErrorCount, hrm, henv]
      | some cb' =>
        by_cases hcb : cb' = cb <;> by_cases he : e' = er <;> cases o <;>
          simp [stepSpec, invokeEvents, onErrorCount, hrm, henv, hcb, he,
            List.countP_cons]

lemma onErrorCount_flatMap (env : Nat → Option Nat) (l : List FuncInfo)
    (cb er : Nat) :
    onErrorCount (l.flatMap (stepSpec env)) cb er
      = l.countP (fun r => !r.is_async && r.on_error == some cb
          && env r.func == some er) := by
  induction l with
  | nil => rfl
  | cons r l ih =>
    simp only [List.flatMap_cons, onErrorCount_append, ih, onErrorCount_stepSpec,
      List.countP_cons]
    by_cases h : (!r.is_async && r.on_error == some cb && env r.func == some er)
    · simp [h]; omega
    · simp [h]

lemma call_fst_eq (env env' cbEnv cbEnv' : Nat → Option Nat)
    (st : ListenerState) (e : String) :
    (_call env cbEnv st e).1 = (_call env' cbEnv' st e).1 := by
  cases h : dictFind st._listeners e with
  | none => simp [_call, h]
  | some live =>
    have h1 := callLoop_eq env cbEnv live [] 0 0 (by simp)
    have h2 := callLoop_eq env' cbEnv' live [] 0 0 (by simp)
    simp only [List.nil_append] at h1 h2
    simp [_call, h, List.enum, h1, h2]

/-- C4: a raising synchronous handler stops nothing: every snapshot record
still fires in order, the registry evolves exactly as with no failure
(so later `raise` calls are also unaffected), each throwing sync record
with a callback produces its `on_error(e)` call exactly once, and the
whole dispatch result is independent of whether the error callbacks
themselves raise (their failures are swallowed); `_call` is a total
function, so no failure reaches its caller. -/
theorem C4_sync_error_containment (env cbEnv cbEnv' : Nat → Option Nat)
    (st : ListenerState) (e : String) (cb er : Nat) :
    (firedSeq (_call env cbEnv st e).2 = (liveFor st e).map (fun r => r.func))
  ∧ (onErrorCount (_call env cbEnv st e).2 cb er
      = (liveFor st e).countP
          (fun r => !r.is_async && r.on_error == some cb && env r.func == some er))
  ∧ ((_call env cbEnv st e).1 = (_call (fun _ => none) (fun _ => none) st e).1)
  ∧ (_call env cbEnv st e = _call env cbEnv' st e) := by
  refine ⟨?_, ?_, ?_, ?_⟩
  · rw [call_trace, firedSeq_flatMap]
  · rw [call_trace, onErrorCount_flatMap]
  · exact call_fst_eq env (fun _ => none) cbEnv (fun _ => none) st e
  · exact Prod.ext_iff.2
      ⟨call_fst_eq env env cbEnv cbEnv' st e, by rw [call_trace, call_trace]⟩

lemma flatMap_stepSpec_async (env : Nat → Option Nat) :
    ∀ l : List FuncInfo, (∀ r ∈ l, r.is_async = true) →
      l.flatMap (stepSpec env)
        = l.flatMap (fun r =>
            (if r.once then [CallEvent.removed r] else [])
              ++ [CallEvent.spawned r.func]) := by
  intro l
  induction l with
  | nil => intro _; rfl
  | cons r l ih =>
    intro h
    have hr := h r (by simp)
    have ih' := ih (fun x hx => h x (by simp [hx]))
    simp [List.flatMap_cons, stepSpec, invokeEvents, hr, ih']

/-- C3 (amended): when an async handler raises inside its spawned unit,
`_call` catches nothing — around an async record it only executes the
thread start, so the trace holds a `spawned` action and never an
`on_error` call; the spawned unit runs the bare handler, whose error
escapes the unit unhandled (and in particular never reaches the `_call`
caller, which got its total result already). -/
theorem C3_async_error_unhandled (env cbEnv : Nat → Option Nat)
    (st : ListenerState) (e : String)
    (hasync : ∀ r ∈ liveFor st e, r.is_async = true) :
    ((_call env cbEnv st e).2
      = (liveFor st e).flatMap
          (fun r => (if r.once then [CallEvent.removed r] else [])
            ++ [CallEvent.spawned r.func]))
  ∧ (∀ cb er, onErrorCount (_call env cbEnv st e).2 cb er = 0)
  ∧ (∀ f, runSpawnedUnit env f = ([CallEvent.invoked f], env f)) := by
  refine ⟨?_, ?_, ?_⟩
  · rw [call_trace]
    exact flatMap_stepSpec_async env _ hasync
  · intro cb er
    rw [call_trace, onErrorCount_flatMap]
    rw [List.countP_eq_zero]
    intro r hr
    simp [hasync r hr]
  · intro f
    cases h : env f <;> simp [runSpawnedUnit, invoke, h]

/-- Witness for the amended C3: one async once-handler that raises, with a
callback installed. -/
theorem C3_async_error_unhandled_witness :
    (∀ r ∈ liveFor (stateOf "e" [⟨0, true, true, some 3⟩]) "e", r.is_async = true) ∧
    (((_call (fun _ => some 7) (fun _ => none)
        (stateOf "e" [⟨0, true, true, some 3⟩]) "e").2
      = (liveFor (stateOf "e" [⟨0, true, true, some 3⟩]) "e").flatMap
          (fun r => (if r.once then [CallEvent.removed r] else [])
            ++ [CallEvent.spawned r.func]))
    ∧ (∀ cb er, onErrorCount ((_call (fun _ => some 7) (fun _ => none)
        (stateOf "e" [⟨0, true, true, some 3⟩]) "e").2) cb er = 0)
    ∧ (∀ f, runSpawnedUnit (fun _ => some 7) f
        = ([CallEvent.invoked f], (fun _ => some (7 : Nat)) f))) :=
  ⟨by decide,
   C3_async_error_unhandled (fun _ => some 7) (fun _ => none)
     (stateOf "e" [⟨0, true, true, some 3⟩]) "e" (by decide)⟩

/-- C3 counterexample to the claim as stated: handler `0` is async with
callback `9` installed and raises error `5` in its spawned unit, yet the
dispatch pass traces only the thread spawn, callback `9` is called
nowhere (neither by `_call` nor inside the unit), and the unit ends with
the error unhandled. -/
theorem C3_async_onError_cex :
    ((_call (fun _ => some 5) (fun _ => none)
        (stateOf "e" [⟨0, true, false, some 9⟩]) "e").2
      = [CallEvent.spawned 0])
  ∧ (onErrorCount ((_call (fun _ => some 5) (fun _ => none)
        (stateOf "e" [⟨0, true, false, some 9⟩]) "e").2) 9 5 = 0)
  ∧ (runSpawnedUnit (fun _ => some 5) 0 = ([CallEvent.invoked 0], some 5))
  ∧ (onErrorCount (runSpawnedUnit (fun _ => some 5) 0).1 9 5 = 0) := by
  refine ⟨rfl, rfl, rfl, rfl⟩

/-- C10: during a dispatch pass each `once` record's removal is the first
action of its snapshot entry, before the handler is entered (sync) or its
thread is spawned (async); and the registry update — every `once` record
removed — happens identically whatever the handlers or callbacks raise,
so a once-handler is removed even when its invocation fails. -/
theorem C10_removed_before_invocation (env cbEnv : Nat → Option Nat)
    (st : ListenerState) (e : String) :
    ((_call env cbEnv st e).2
      = (liveFor st e).flatMap
          (fun r => (if r.once then [CallEvent.removed r] else [])
            ++ invokeEvents env r))
  ∧ ((_call env cbEnv st e).1._listeners
      = match dictFind st._listeners e with
        | none => st._listeners
        | some live => dictSet st._listeners e (live.filter (fun r => !r.once)))
  ∧ ((_call env cbEnv st e).1 = (_call (fun _ => none) (fun _ => none) st e).1) := by
  refine ⟨?_, ?_, ?_⟩
  · rw [call_trace]
    rfl
  · exact call_listeners env cbEnv st e
  · exact call_fst_eq env (fun _ => none) cbEnv (fun _ => none) st e

/-- C8 counterexample: the only read access the augmented type exposes is
the `_listeners` dict itself, and a fresh object subscripted at an
unregistered event name raises `KeyError` — it does not yield an empty
sequence. -/
theorem C8_unknown_event_read_cex :
    dict_getitem new_init._listeners "connected" = Except.error "KeyError"
  ∧ (Except.error "KeyError"
      ≠ (Except.ok ([] : List FuncInfo) : Except String (List FuncInfo))) :=
  ⟨rfl, by simp⟩

/-- C8 (amended): read access to the ordered handler sequence goes
through the `_listeners` mapping; an event never registered has no key,
so subscripting it raises `KeyError` rather than yielding an empty
sequence, while after a registration for the event subscripting yields
the ordered record list. -/
theorem C8_read_access (st : ListenerState) (ev : String) (f : Nat)
    (a o : Bool) (er : Option Nat) :
    (∀ e, dict_getitem new_init._listeners e = Except.error "KeyError")
  ∧ dict_getitem (addListener st ev f a o er)._listeners ev
      = Except.ok (liveFor st ev ++ [⟨f, a, o, er⟩]) := by
  constructor
  · intro e; rfl
  · simp [dict_getitem, addListener_find_self]

/-- C9: a handler registered through `on` is stored with `on_error =
None` even when a callback was supplied to `on`; only the event name,
handler, `is_async` and `once` reach `addListener`. -/
theorem C9_on_drops_onError (st : ListenerState) (ev : String) (f : Nat)
    (a o : Bool) (er : Option Nat) :
    on_decorator st ev f a o er = addListener st ev f a o none
  ∧ dictFind (on_decorator st ev f a o er)._listeners ev
      = some (liveFor st ev ++ [⟨f, a, o, none⟩]) :=
  ⟨rfl, addListener_find_self st ev f a o none⟩

lemma extractLoop_eq_dedupLoop :
    ∀ (nodes : List PyAst) (acc : List String),
      extractLoop nodes acc = dedupLoop (nodes.filterMap matchEventName) acc := by
  intro nodes
  induction nodes with
  | nil => intro acc; rfl
  | cons node rest ih =>
    intro acc
    cases h : matchEventName node with
    | none => simp [extractLoop, h, List.filterMap_cons, ih]
    | some v =>
      by_cases hc : v ∈ acc <;>
        simp [extractLoop, dedupLoop, h, hc, List.filterMap_cons, ih]

lemma filter_mem_append (acc : List String) (v : String) (vs : List String) :
    vs.filter (fun w => decide (w ∉ acc ++ [v]))
      = (vs.filter (fun w => decide (w ∉ acc))).filter (fun y => decide (y ≠ v)) := by
  rw [List.filter_filter]
  apply List.filter_congr
  intro w _
  by_cases h1 : w ∈ acc <;> by_cases h2 : w = v <;> simp [h1, h2]

lemma dedupLoop_eq :
    ∀ (vs acc : List String),
      dedupLoop vs acc
        = acc ++ firstSeenDedup (vs.filter (fun v => decide (v ∉ acc))) := by
  intro vs
  induction vs with
  | nil => intro acc; simp [dedupLoop, firstSeenDedup]
  | cons v vs ih =>
    intro acc
    by_cases hc : v ∈ acc
    · rw [show dedupLoop (v :: vs) acc = dedupLoop vs acc by
          simp [dedupLoop, hc]]
      rw [ih]
      rw [show (v :: vs).filter (fun w => decide (w ∉ acc))
            = vs.filter (fun w => decide (w ∉ acc)) by
          simp [List.filter_cons, hc]]
    · rw [show dedupLoop (v :: vs) acc = dedupLoop vs (acc ++ [v]) by
          simp [dedupLoop, hc]]
      rw [ih]
      rw [show (v :: vs).filter (fun w => decide (w ∉ acc))
            = v :: vs.filter (fun w => decide (w ∉ acc)) by
          simp [List.filter_cons, hc]]
      rw [filter_mem_append]
      simp only [firstSeenDedup]
      simp

lemma mem_firstSeenDedup (l : List String) (v : String) :
    v ∈ firstSeenDedup l ↔ v ∈ l := by
  induction l using firstSeenDedup.induct with
  | case1 => simp [firstSeenDedup]
  | case2 x xs ih =>
    simp only [firstSeenDedup, List.mem_cons]
    rw [ih]
    by_cases h : v = x <;> simp [h]

lemma nodup_firstSeenDedup (l : List String) : (firstSeenDedup l).Nodup := by
  induction l using firstSeenDedup.induct with
  | case1 => simp [firstSeenDedup]
  | case2 x xs ih =>
    simp only [firstSeenDedup]
    refine List.nodup_cons.mpr ⟨?_, ih⟩
    rw [mem_firstSeenDedup]
    simp

lemma matchEventName_some_iff (n : PyAst) (v : String) :
    matchEventName n = some v ↔ IsEventCall n v := by
  constructor
  · intro h
    cases n
    all_goals try (simp [matchEventName] at h)
    rename_i f args
    cases f
    all_goals try (simp [matchEventName] at h)
    rename_i recv attr
    cases recv
    all_goals try (simp [matchEventName] at h)
    rename_i id
    by_cases hc : id = "self" ∧ (attr = "_call" ∨ attr = "_addListenerDoc")
    · obtain ⟨hid, hattr⟩ := hc
      subst hid
      rcases hattr with hattr | hattr <;> subst hattr
      all_goals
        cases args with
        | nil => simp [matchEventName] at h
        | cons a rest =>
          cases a
          all_goals try (simp [matchEventName] at h)
          rename_i w
          subst h
          exact ⟨_, rest, by simp, rfl⟩
    · simp [matchEventName, hc] at h
  · rintro ⟨attr, rest, hattr, rfl⟩
    rcases hattr with hattr | hattr <;> subst hattr <;> simp [matchEventName]

/-- C6: for every walked definition the recorded events are exactly the
first-seen deduplication of the literals matched along the breadth-first
walk; a name is recorded iff some walked node is a `self._call`/
`self._addListenerDoc` call whose first positional argument is that
literal (computed first arguments are skipped, since `matchEventName`
only accepts a `Constant` head); the result holds no duplicates. -/
theorem C6_literal_extraction (tree : PyAst) :
    ((extract_listeners (Except.ok tree)).events
      = firstSeenDedup ((walk tree).filterMap matchEventName))
  ∧ (∀ v, v ∈ (extract_listeners (Except.ok tree)).events
      ↔ ∃ n, n ∈ walk tree ∧ IsEventCall n v)
  ∧ (extract_listeners (Except.ok tree)).events.Nodup := by
  have hev : (extract_listeners (Except.ok tree)).events
      = firstSeenDedup ((walk tree).filterMap matchEventName) := by
    show extractLoop (walk tree) [] = _
    rw [extractLoop_eq_dedupLoop, dedupLoop_eq]
    simp
  refine ⟨hev, ?_, ?_⟩
  · intro v
    rw [hev, mem_firstSeenDedup, List.mem_filterMap]
    constructor
    · rintro ⟨n, hn, hm⟩
      exact ⟨n, hn, (matchEventName_some_iff n v).1 hm⟩
    · rintro ⟨n, hn, hm⟩
      exact ⟨n, hn, (matchEventName_some_iff n v).2 hm⟩
  · rw [hev]
    exact nodup_firstSeenDedup _

/-- C5: `extract_listeners` is a total function into `ExtractionResult`
(nothing escapes to the caller): a failed getsource/parse yields
`events = []` with the error in the `error` field, and the definition
raising `"connected"` and `"disconnected"` yields exactly those two
events with no error. -/
theorem C5_extract_total :
    (∀ e, extract_listeners (Except.error e)
      = { events := [], error := some e })
  ∧ extract_listeners (Except.ok exampleTree)
      = { events := ["connected", "disconnected"], error := none } := by
  constructor
  · intro e; rfl
  · simp [extract_listeners, exampleTree, walk, walkAux, children,
      extractLoop, matchEventName]

lemma addListener_docs (st : ListenerState) (ev : String) (f : Nat)
    (a o : Bool) (er : Option Nat) :
    (addListener st ev f a o er)._listener_docs = st._listener_docs := rfl

lemma call_docs (env cbEnv : Nat → Option Nat) (st : ListenerState) (e : String) :
    (_call env cbEnv st e).1._listener_docs = st._listener_docs := by
  cases h : dictFind st._listeners e <;> simp [_call, h]

lemma buildDocs_congr (clsName model : String) (s1 s2 : ListenerState)
    (h : s1._listener_docs = s2._listener_docs) :
    buildListenerDocs clsName s1 model = buildListenerDocs clsName s2 model := by
  simp only [buildListenerDocs, _buildListenerDocs_md, _buildListenerDocs_html, h]

/-- C7: `buildListenerDocs` is a pure function of the documented-events
map and the type name: states with the same `_listener_docs` render
identically for every format, a repeated call is byte-identical, and
neither a registration nor a dispatch changes the output. -/
theorem C7_buildDocs_deterministic (clsName model : String)
    (s1 s2 : ListenerState) (h : s1._listener_docs = s2._listener_docs)
    (env cbEnv : Nat → Option Nat) (ev : String) (f : Nat) (a o : Bool)
    (er : Option Nat) :
    (buildListenerDocs clsName s1 model = buildListenerDocs clsName s2 model)
  ∧ (buildListenerDocs clsName s1 model = buildListenerDocs clsName s1 model)
  ∧ (buildListenerDocs clsName (addListener s1 ev f a o er) model
      = buildListenerDocs clsName s1 model)
  ∧ (buildListenerDocs clsName (_call env cbEnv s1 ev).1 model
      = buildListenerDocs clsName s1 model) := by
  refine ⟨buildDocs_congr clsName model s1 s2 h, rfl, ?_, ?_⟩
  · exact buildDocs_congr clsName model _ s1 (addListener_docs s1 ev f a o er)
  · exact buildDocs_congr clsName model _ s1 (call_docs env cbEnv s1 ev)

/-- Witness for C7: two states sharing one documented event but
different handler registries, rendered as Markdown. -/
theorem C7_buildDocs_deterministic_witness :
    ((⟨[("x", [⟨1, false, false, none⟩])],
        [("evt", ⟨"d", ["p1", "p2"]⟩)]⟩ : ListenerState)._listener_docs
      = (⟨[], [("evt", ⟨"d", ["p1", "p2"]⟩)]⟩ : ListenerState)._listener_docs) ∧
    ((buildListenerDocs "MyClass"
        ⟨[("x", [⟨1, false, false, none⟩])], [("evt", ⟨"d", ["p1", "p2"]⟩)]⟩ "md"
      = buildListenerDocs "MyClass" ⟨[], [("evt", ⟨"d", ["p1", "p2"]⟩)]⟩ "md")
    ∧ (buildListenerDocs "MyClass"
        ⟨[("x", [⟨1, false, false, none⟩])], [("evt", ⟨"d", ["p1", "p2"]⟩)]⟩ "md"
      = buildListenerDocs "MyClass"
        ⟨[("x", [⟨1, false, false, none⟩])], [("evt", ⟨"d", ["p1", "p2"]⟩)]⟩ "md")
    ∧ (buildListenerDocs "MyClass"
        (addListener ⟨[("x", [⟨1, false, false, none⟩])],
          [("evt", ⟨"d", ["p1", "p2"]⟩)]⟩ "y" 2 true false (some 3)) "md"
      = buildListenerDocs "MyClass"
        ⟨[("x", [⟨1, false, false, none⟩])], [("evt", ⟨"d", ["p1", "p2"]⟩)]⟩ "md")
    ∧ (buildListenerDocs "MyClass"
        (_call (fun _ => none) (fun _ => none)
          ⟨[("x", [⟨1, false, false, none⟩])], [("evt", ⟨"d", ["p1", "p2"]⟩)]⟩ "y").1 "md"
      = buildListenerDocs "MyClass"
        ⟨[("x", [⟨1, false, false, none⟩])], [("evt", ⟨"d", ["p1", "p2"]⟩)]⟩ "md")) :=
  ⟨rfl,
   C7_buildDocs_deterministic "MyClass" "md"
     ⟨[("x", [⟨1, false, false, none⟩])], [("evt", ⟨"d", ["p1", "p2"]⟩)]⟩
     ⟨[], [("evt", ⟨"d", ["p1", "p2"]⟩)]⟩ rfl
     (fun _ => none) (fun _ => none) "y" 2 true false (some 3)⟩
